import Mathlib

/-!
Verification of the candidate reranking engine of dblplink-2.0
(src/entitylinker/entitylinker/candidate_reranker.py).

The Python code is shallowly embedded: the scoring model and the SPARQL
endpoint are abstracted as oracle functions (the model as a map from a
finished prompt string to the log-probability of the token "yes"; the
endpoint as a map from an entity URI to the two lists of result-row
bindings), floating point log-probabilities are modelled as rationals,
and every other operation is translated line by line from the source.
-/

namespace DblpLink

/-! ## Data model

A SPARQL result row (one element of `results.bindings`) is an association
list from variable name to the `value` string of that variable.  A missing
variable behaves like the Python `binding.get(key, \x7b\x7d).get('value', '')`:
it yields the empty string. -/

abbrev Binding := List (String × String)

/-- Value of variable `k` in row `b`, with the empty-string default of
`binding.get(k, \x7b\x7d).get('value', '')`. -/
def bget (b : Binding) (k : String) : String := (b.lookup k).getD ""

/-- A detected mention span: `{'label': ..., 'type': ...}`. -/
structure Span where
  label : String
  type : String
deriving DecidableEq

/-- One candidate entity, the triple `entity_uri[0], entity_uri[1],
entity_uri[2]` (URI, display label, type) of the source. -/
structure Candidate where
  uri : String
  label : String
  ctype : String
deriving DecidableEq

/-- One scored candidate, the list `[score, [uri, label, type, evidence]]`
appended to `entity_scores` in `rerank_candidates`. -/
structure ScoredCandidate where
  score : ℚ
  uri : String
  label : String
  ctype : String
  evidence : String
deriving DecidableEq

/-- One element of `sorted_spans`:
`{'label': ..., 'result': ..., 'type': ...}`. -/
structure RankedSpan where
  label : String
  result : List ScoredCandidate
  type : String
deriving DecidableEq

/-- The `final_result` dictionary returned by `rerank_candidates`. -/
structure LinkingResult where
  entitylinkingresults : List RankedSpan
  predictedlabelspans : List String
  question : String
deriving DecidableEq

/-! ## Python `in` on strings (substring containment) -/

/-- Containment of `needle` as a contiguous chunk of `hay`. -/
def containsSub : List Char → List Char → Bool
  | needle, [] => needle.isPrefixOf ([] : List Char)
  | needle, c :: t => needle.isPrefixOf (c :: t) || containsSub needle t

/-- The Python expression `sub in s` on strings. -/
def pyIn (sub s : String) : Bool := containsSub sub.data s.data

/-! ## format_input -/

/-- The prompt builder `CandidateReranker.format_input`. -/
def format_input (mention context entity_name entity_info_line : String) : String :=
  "You are an assistant linking mentions to entities.\n" ++
  "Document: " ++ context ++ "\n" ++
  "Mention: " ++ mention ++ "\n" ++
  "Candidate Entity: " ++ entity_name ++ "\n" ++
  "Entity Info: " ++ entity_info_line ++ "\n" ++
  "Question: Does the mention belong to this entity? Answer: yes/no\n" ++
  "Answer:"

/-! ## compute_avg_yes_score

The model and tokenizer pair is abstracted as one oracle `M` sending a
finished prompt to the log-probability (a rational, standing for the
float) that the model assigns to the token "yes" at the readout position
of that prompt.  `np.mean` becomes exact rational mean, Python `max` on a
nonempty list becomes `List.max?` (literally `foldl max` in both), and
`scores.index(...)` becomes `pyindex`, the index of the first occurrence.
On an empty line list Python `max([])` raises, hence the `Option`. -/

/-- The Python expression `scores.index(a)`: index of the first occurrence
of `a` (the length of the list when `a` is absent, where Python raises). -/
def pyindex (a : ℚ) : List ℚ → ℕ
  | [] => 0
  | b :: t => if b = a then 0 else pyindex a t + 1

/-- `CandidateReranker.compute_avg_yes_score`, with the batched model call
abstracted by the oracle `M`. -/
def compute_avg_yes_score (M : String → ℚ) (mention context entity_name : String)
    (entity_info_lines : List String) : Option (ℚ × String) :=
  let scores := entity_info_lines.map
    (fun line => M (format_input mention context entity_name line))
  match scores.max? with
  | none => none
  | some m =>
      some (scores.sum / (scores.length : ℚ),
            entity_info_lines.getD (pyindex m scores) "")

/-! ## linearise_neighbourhood -/

/-- The ASCII whitespace stripped by Python `str.strip()`. -/
def isPySpace (c : Char) : Bool :=
  c = ' ' || c = '\t' || c = '\n' || c = '\r' || c = '\x0b' || c = '\x0c'

/-- Python `str.strip()`: drop leading and trailing whitespace. -/
def pystrip (s : String) : String :=
  ⟨((s.data.dropWhile isPySpace).reverse.dropWhile isPySpace).reverse⟩

/-- The inner helper `extract_triple` of `linearise_neighbourhood`. -/
def extract_triple (s_key p_key o_key : String) (binding : Binding) : Option String :=
  let s := pystrip (bget binding s_key)
  let p := pystrip (bget binding p_key)
  let o := pystrip (bget binding o_key)
  if pyIn "_:bn" s || pyIn "_:bn" o then none
  else if s ≠ "" ∧ p ≠ "" ∧ o ≠ "" then some (s ++ " — " ++ p ++ " — " ++ o)
  else none

/-- `CandidateReranker.linearise_neighbourhood`: the two appending loops
over `left_json["results"]["bindings"]` (keys `sLabel`, `p`, `oLabel`) and
`right_json["results"]["bindings"]` (keys `sLabel`, `pLabel`, `oLabel`). -/
def linearise_neighbourhood (left_bindings right_bindings : List Binding) : List String :=
  left_bindings.filterMap (extract_triple "sLabel" "p" "oLabel") ++
  right_bindings.filterMap (extract_triple "sLabel" "pLabel" "oLabel")

/-! ## rerank_candidates -/

/-- The key comparison of `entity_scores.sort(key=lambda x: x[0],
reverse=True)`: `a` may come before `b` when `a.score ≥ b.score`. -/
def sortKeyLe (a b : ScoredCandidate) : Bool := decide (b.score ≤ a.score)

/-- Python `list.sort(key=lambda x: x[0], reverse=True)`: the stable sort
by score descending.  `List.mergeSort` is stable, as Timsort is. -/
def pysortDesc (l : List ScoredCandidate) : List ScoredCandidate :=
  l.mergeSort sortKeyLe

/-- One iteration of the inner candidate loop of `rerank_candidates` in
scoring mode: fetch (oracle `fetch`), linearise, skip on an empty
neighbourhood (`continue`), otherwise score.  `none` means the candidate
contributes nothing to `entity_scores`. -/
def scoreOne (M : String → ℚ) (fetch : String → List Binding × List Binding)
    (text : String) (span : Span) (c : Candidate) : Option ScoredCandidate :=
  let fetched := fetch c.uri
  let neigh := linearise_neighbourhood fetched.1 fetched.2
  if neigh = [] then none
  else
    match compute_avg_yes_score M span.label text c.uri neigh with
    | none => none
    | some sc => some ⟨sc.1, c.uri, c.label, c.ctype, sc.2⟩

/-- The body of the per-span loop of `rerank_candidates` in scoring mode:
score each candidate in input order, drop the skipped ones, sort by score
descending, and wrap with the span label and type. -/
def processSpan (M : String → ℚ) (fetch : String → List Binding × List Binding)
    (text : String) (span : Span) (cands : List Candidate) : RankedSpan :=
  ⟨span.label, pysortDesc (cands.filterMap (scoreOne M fetch text span)), span.type⟩

/-- `CandidateReranker.rerank_candidates`.  Both branches iterate over
`zip(spans, entity_candidates)`; the text-match-only branch gives every
candidate the sentinel score `-1.0` and an empty evidence string. -/
def rerank_candidates (M : String → ℚ) (fetch : String → List Binding × List Binding)
    (text : String) (spans : List Span) (entity_candidates : List (List Candidate))
    (text_match_only : Bool) : LinkingResult :=
  let sorted_spans :=
    if text_match_only then
      (spans.zip entity_candidates).map (fun p =>
        ⟨p.1.label, p.2.map (fun c => ⟨-1, c.uri, c.label, c.ctype, ""⟩), p.1.type⟩)
    else
      (spans.zip entity_candidates).map (fun p => processSpan M fetch text p.1 p.2)
  ⟨sorted_spans, spans.map (fun span => span.label ++ " : " ++ span.type), text⟩

/-! ## Reranker object state

`CandidateReranker` holds only the configuration and the model,
tokenizer and device handles; `rerank_candidates` reads them and assigns
no attribute, which the explicit state passing below makes visible. -/

/-- The attributes of a `CandidateReranker` instance that the reranking
path reads: the endpoint configuration and the model and fetch oracles. -/
structure RerankerState where
  sparql_endpoint : String
  M : String → ℚ
  fetch : String → List Binding × List Binding

/-- A call of the method `rerank_candidates` on an instance in state
`st`, returning the result together with the state of the instance after
the call (the method mutates no attribute). -/
def rerank_call (st : RerankerState) (text : String) (spans : List Span)
    (cands : List (List Candidate)) (tmo : Bool) : LinkingResult × RerankerState :=
  (rerank_candidates st.M st.fetch text spans cands tmo, st)

/-! ## Batch readout bookkeeping of compute_avg_yes_score

`inputs.attention_mask[i]` is a 0/1 vector; the code computes
`input_len = attention_mask.sum().item()` and reads the next-token
distribution of sequence `i` at `log_probs[i, input_len - 1, ...]`. -/

/-- `attention_mask.sum().item()` for one sequence of the batch. -/
def input_len (attention_mask : List ℕ) : ℕ := attention_mask.sum

/-- The position `input_len - 1` at which `compute_avg_yes_score` reads
the next-token log-probability of "yes" for one sequence. -/
def readout_index (attention_mask : List ℕ) : ℕ := input_len attention_mask - 1

/-! ## Helper lemmas on substring containment -/

theorem containsSub_append_left {n : List Char} (s : List Char) {t : List Char}
    (h : containsSub n t = true) : containsSub n (s ++ t) = true := by
  induction s with
  | nil => simpa using h
  | cons c cs ih =>
    simp only [List.cons_append, containsSub, Bool.or_eq_true]
    exact Or.inr ih

theorem pyIn_append_right {n : String} (s : String) {t : String}
    (h : pyIn n t = true) : pyIn n (s ++ t) = true := by
  simp only [pyIn, String.data_append]
  exact containsSub_append_left s.data h

/-! ## Helper lemmas on Python max and list.index -/

theorem foldl_max_mem (a : ℚ) (l : List ℚ) : l.foldl max a = a ∨ l.foldl max a ∈ l := by
  induction l generalizing a with
  | nil => exact Or.inl rfl
  | cons b t ih =>
    simp only [List.foldl_cons]
    rcases ih (max a b) with h | h
    · rcases max_choice a b with hm | hm
      · exact Or.inl (h.trans hm)
      · exact Or.inr (by rw [h, hm]; exact List.mem_cons_self b t)
    · exact Or.inr (List.mem_cons_of_mem b h)

theorem le_foldl_max (a : ℚ) (l : List ℚ) :
    a ≤ l.foldl max a ∧ ∀ b ∈ l, b ≤ l.foldl max a := by
  induction l generalizing a with
  | nil => exact ⟨le_refl a, by simp⟩
  | cons c t ih =>
    obtain ⟨h1, h2⟩ := ih (max a c)
    refine ⟨le_trans (le_max_left a c) h1, ?_⟩
    intro b hb
    rcases List.mem_cons.mp hb with rfl | hb
    · exact le_trans (le_max_right a b) h1
    · exact h2 b hb

theorem max?_spec {l : List ℚ} {m : ℚ} (h : l.max? = some m) :
    m ∈ l ∧ ∀ b ∈ l, b ≤ m := by
  cases l with
  | nil => exact absurd h (by simp)
  | cons a t =>
    have hm : t.foldl max a = m := by simpa [List.max?] using h
    subst hm
    constructor
    · rcases foldl_max_mem a t with h1 | h1
      · rw [h1]; exact List.mem_cons_self a t
      · exact List.mem_cons_of_mem a h1
    · intro b hb
      rcases List.mem_cons.mp hb with rfl | hb
      · exact (le_foldl_max b t).1
      · exact (le_foldl_max a t).2 b hb

theorem pyindex_lt_length {a : ℚ} {l : List ℚ} (h : a ∈ l) :
    pyindex a l < l.length := by
  induction l with
  | nil => cases h
  | cons b t ih =>
    simp only [pyindex, List.length_cons]
    by_cases hb : b = a
    · rw [if_pos hb]; exact Nat.succ_pos _
    · rw [if_neg hb]
      have ha : a ∈ t := by
        rcases List.mem_cons.mp h with h1 | h1
        · exact absurd h1.symm hb
        · exact h1
      exact Nat.succ_lt_succ (ih ha)

theorem pyindex_getD {a : ℚ} {l : List ℚ} (h : a ∈ l) :
    l.getD (pyindex a l) 0 = a := by
  induction l with
  | nil => cases h
  | cons b t ih =>
    simp only [pyindex]
    by_cases hb : b = a
    · rw [if_pos hb]; simpa using hb
    · rw [if_neg hb]
      have ha : a ∈ t := by
        rcases List.mem_cons.mp h with h1 | h1
        · exact absurd h1.symm hb
        · exact h1
      simpa using ih ha

theorem getD_ne_of_lt_pyindex {a : ℚ} {l : List ℚ} {j : ℕ}
    (hj : j < pyindex a l) : l.getD j 0 ≠ a := by
  induction l generalizing j with
  | nil => exact absurd hj (by simp [pyindex])
  | cons b t ih =>
    simp only [pyindex] at hj
    by_cases hb : b = a
    · rw [if_pos hb] at hj; exact absurd hj (Nat.not_lt_zero j)
    · rw [if_neg hb] at hj
      cases j with
      | zero => simpa using hb
      | succ j => simpa using ih (Nat.lt_of_succ_lt_succ hj)

/-- C1: contrary to the specification (and to the source comment
"do NOT include 'yes' in the prompt"), for every mention, context,
candidate name and evidence line the prompt built by `format_input`
does contain the word "yes": the fixed instruction line
"Question: Does the mention belong to this entity? Answer: yes/no"
carries it. -/
theorem C1_format_input_contains_yes
    (mention context entity_name entity_info_line : String) :
    pyIn "yes" (format_input mention context entity_name entity_info_line) = true := by
  unfold format_input
  rw [String.append_assoc _ "Question: Does the mention belong to this entity? Answer: yes/no\n" "Answer:"]
  refine pyIn_append_right _ ?_
  decide

theorem bestline_spec (f : String → ℚ) (l0 : String) (lt : List String) :
    ∃ i, ∃ hi : i < (l0 :: lt).length,
      (l0 :: lt).getD (pyindex ((lt.map f).foldl max (f l0)) ((l0 :: lt).map f)) ""
        = (l0 :: lt)[i] ∧
      (∀ j, ∀ hj : j < (l0 :: lt).length, f ((l0 :: lt)[j]) ≤ f ((l0 :: lt)[i])) ∧
      ∀ j, ∀ hj : j < i, f ((l0 :: lt)[j]) < f ((l0 :: lt)[i]) := by
  have hmax : ((l0 :: lt).map f).max? = some ((lt.map f).foldl max (f l0)) := rfl
  obtain ⟨hmem, hle⟩ := max?_spec hmax
  generalize hm : (lt.map f).foldl max (f l0) = m at hmem hle ⊢
  have hilt : pyindex m ((l0 :: lt).map f) < ((l0 :: lt).map f).length :=
    pyindex_lt_length hmem
  have hlen : ((l0 :: lt).map f).length = (l0 :: lt).length := List.length_map _ _
  have hilt' : pyindex m ((l0 :: lt).map f) < (l0 :: lt).length := hlen ▸ hilt
  have hival : f ((l0 :: lt)[pyindex m ((l0 :: lt).map f)]) = m := by
    have h1 : ((l0 :: lt).map f).getD (pyindex m ((l0 :: lt).map f)) 0 = m :=
      pyindex_getD hmem
    rwa [List.getD_eq_getElem _ _ hilt, List.getElem_map] at h1
  refine ⟨pyindex m ((l0 :: lt).map f), hilt', List.getD_eq_getElem _ _ hilt', ?_, ?_⟩
  · intro j hj
    rw [hival]
    exact hle _ (List.mem_map_of_mem f (List.getElem_mem hj))
  · intro j hj
    have hjl : j < (l0 :: lt).length := hj.trans hilt'
    have hne : ((l0 :: lt).map f).getD j 0 ≠ m := getD_ne_of_lt_pyindex hj
    rw [List.getD_eq_getElem _ _ (by simpa [hlen] using hjl), List.getElem_map] at hne
    rw [hival]
    exact lt_of_le_of_ne (hle _ (List.mem_map_of_mem f (List.getElem_mem hjl))) hne

/-- C2: on every nonempty evidence-line list, compute_avg_yes_score
returns the arithmetic mean of the per-line log-probabilities as the
aggregate score, and as the evidence sentence the line whose
log-probability is maximal, ties broken by the first occurrence in the
given linearized order (all earlier lines score strictly lower). -/
theorem C2_compute_avg_yes_score_mean_and_first_max (M : String → ℚ)
    (mention context entity_name : String) (lines : List String)
    (h : lines ≠ []) :
    ∃ avg best,
      compute_avg_yes_score M mention context entity_name lines = some (avg, best) ∧
      avg = (lines.map (fun line => M (format_input mention context entity_name line))).sum
              / (lines.length : ℚ) ∧
      ∃ i, ∃ hi : i < lines.length,
        best = lines[i] ∧
        (∀ j, ∀ hj : j < lines.length,
          M (format_input mention context entity_name lines[j]) ≤
            M (format_input mention context entity_name lines[i])) ∧
        ∀ j, ∀ hj : j < i,
          M (format_input mention context entity_name lines[j]) <
            M (format_input mention context entity_name lines[i]) := by
  cases lines with
  | nil => exact absurd rfl h
  | cons l0 lt =>
    obtain ⟨i, hi, hbest, hmaxp, hfirst⟩ :=
      bestline_spec (fun line => M (format_input mention context entity_name line)) l0 lt
    refine ⟨_, _, rfl, by simp, i, hi, hbest, hmaxp, hfirst⟩

/-! ## Helper lemmas on the descending stable sort -/

theorem sortKeyLe_trans (a b c : ScoredCandidate) :
    sortKeyLe a b → sortKeyLe b c → sortKeyLe a c := by
  simp only [sortKeyLe, decide_eq_true_eq]
  exact fun h1 h2 => le_trans h2 h1

theorem sortKeyLe_total (a b : ScoredCandidate) :
    sortKeyLe a b || sortKeyLe b a := by
  simp only [sortKeyLe, Bool.or_eq_true, decide_eq_true_eq]
  exact le_total b.score a.score

theorem pysortDesc_sorted (l : List ScoredCandidate) :
    (pysortDesc l).Pairwise (fun a b => b.score ≤ a.score) := by
  have h := List.sorted_mergeSort sortKeyLe_trans sortKeyLe_total l
  exact h.imp (by intro a b hab; simpa [sortKeyLe] using hab)

theorem filter_pysortDesc (l : List ScoredCandidate) (q : ℚ) :
    (pysortDesc l).filter (fun e => decide (e.score = q))
      = l.filter (fun e => decide (e.score = q)) := by
  have hpw : (l.filter (fun e => decide (e.score = q))).Pairwise
      (fun a b => sortKeyLe a b) := by
    apply List.pairwise_of_forall_mem_list
    intro a ha b hb
    have ha2 := (List.mem_filter.mp ha).2
    have hb2 := (List.mem_filter.mp hb).2
    simp only [decide_eq_true_eq] at ha2 hb2
    simp [sortKeyLe, ha2, hb2]
  have hsub : (l.filter (fun e => decide (e.score = q))).Sublist (pysortDesc l) :=
    List.sublist_mergeSort sortKeyLe_trans sortKeyLe_total hpw (List.filter_sublist l)
  have hsub2 : (l.filter (fun e => decide (e.score = q))).Sublist
      ((pysortDesc l).filter (fun e => decide (e.score = q))) := by
    have h1 := hsub.filter (fun e => decide (e.score = q))
    rwa [List.filter_eq_self.mpr (fun a ha => (List.mem_filter.mp ha).2)] at h1
  have hperm : ((pysortDesc l).filter (fun e => decide (e.score = q))).Perm
      (l.filter (fun e => decide (e.score = q))) :=
    (List.mergeSort_perm l sortKeyLe).filter _
  exact (hsub2.eq_of_length hperm.length_eq.symm).symm

/-- C3: in scoring mode, each output span entry's candidate list is the
stable descending sort of the scored-candidate list built in input
order: adjacent scores are non-increasing, and for every score value the
candidates carrying it appear exactly in their relative input order. -/
theorem C3_rerank_sorted_descending_stable (M : String → ℚ)
    (fetch : String → List Binding × List Binding) (text : String)
    (spans : List Span) (cands : List (List Candidate)) :
    (rerank_candidates M fetch text spans cands false).entitylinkingresults
      = (spans.zip cands).map (fun p => processSpan M fetch text p.1 p.2) ∧
    ∀ span : Span, ∀ cs : List Candidate,
      (processSpan M fetch text span cs).result
          = pysortDesc (cs.filterMap (scoreOne M fetch text span)) ∧
      (processSpan M fetch text span cs).result.Pairwise
          (fun a b => b.score ≤ a.score) ∧
      ∀ q : ℚ,
        (processSpan M fetch text span cs).result.filter (fun e => decide (e.score = q))
          = (cs.filterMap (scoreOne M fetch text span)).filter
              (fun e => decide (e.score = q)) := by
  refine ⟨rfl, ?_⟩
  intro span cs
  exact ⟨rfl, pysortDesc_sorted _, fun q => filter_pysortDesc _ q⟩

/-- C4: with textMatchOnly true, the result does not depend on the fetch
or scoring oracles (no fetch and no scoring is performed), every
candidate of every span appears in input order, and every entry carries
the sentinel score -1 and an empty evidence string. -/
theorem C4_text_match_only_sentinel (M Mx : String → ℚ)
    (fetch fetchx : String → List Binding × List Binding) (text : String)
    (spans : List Span) (cands : List (List Candidate)) :
    rerank_candidates M fetch text spans cands true
      = rerank_candidates Mx fetchx text spans cands true ∧
    (rerank_candidates M fetch text spans cands true).entitylinkingresults
      = (spans.zip cands).map (fun p =>
          ⟨p.1.label, p.2.map (fun c => ⟨-1, c.uri, c.label, c.ctype, ""⟩), p.1.type⟩) ∧
    ∀ rs, rs ∈ (rerank_candidates M fetch text spans cands true).entitylinkingresults →
      ∀ e, e ∈ rs.result → e.score = -1 ∧ e.evidence = "" := by
  refine ⟨rfl, rfl, ?_⟩
  intro rs hrs e he
  have hrs2 : rs ∈ (spans.zip cands).map (fun p =>
      (⟨p.1.label, p.2.map (fun c => ⟨-1, c.uri, c.label, c.ctype, ""⟩),
        p.1.type⟩ : RankedSpan)) := hrs
  obtain ⟨p, hp, rfl⟩ := List.mem_map.mp hrs2
  obtain ⟨c, hc, rfl⟩ := List.mem_map.mp he
  exact ⟨rfl, rfl⟩

/-- C5: a candidate whose linearized neighbourhood is empty is skipped:
it is not scored and is absent from the span's output; every output
entry comes from a candidate with a nonempty neighbourhood, and the
aggregator is never given an empty evidence-line list (on a nonempty
one it never fails, so a mean over an empty score set is never taken). -/
theorem C5_empty_neighbourhood_candidate_dropped (M : String → ℚ)
    (fetch : String → List Binding × List Binding) (text : String) (span : Span)
    (cands : List Candidate) (c : Candidate)
    (h : linearise_neighbourhood (fetch c.uri).1 (fetch c.uri).2 = []) :
    scoreOne M fetch text span c = none ∧
    (∀ e, e ∈ (processSpan M fetch text span cands).result →
      ∃ cx, cx ∈ cands ∧
        linearise_neighbourhood (fetch cx.uri).1 (fetch cx.uri).2 ≠ [] ∧
        scoreOne M fetch text span cx = some e) ∧
    ∀ lines : List String, lines ≠ [] →
      compute_avg_yes_score M span.label text c.uri lines ≠ none := by
  refine ⟨by simp [scoreOne, h], ?_, ?_⟩
  · intro e he
    have he2 : e ∈ cands.filterMap (scoreOne M fetch text span) := by
      have : e ∈ pysortDesc (cands.filterMap (scoreOne M fetch text span)) := he
      rwa [pysortDesc, List.mem_mergeSort] at this
    obtain ⟨cx, hcx, hsx⟩ := List.mem_filterMap.mp he2
    refine ⟨cx, hcx, ?_, hsx⟩
    intro hempty
    have hnone : scoreOne M fetch text span cx = none := by
      simp [scoreOne, hempty]
    rw [hnone] at hsx
    exact Option.noConfusion hsx
  · intro lines hl
    cases lines with
    | nil => exact absurd rfl hl
    | cons l0 lt =>
      have hs : (compute_avg_yes_score M span.label text c.uri (l0 :: lt)).isSome
          = true := rfl
      exact Option.ne_none_iff_isSome.mpr hs

/-- C6: linearise_neighbourhood emits all outgoing rows first and then
all incoming rows, each direction in fetch order; a row is dropped
exactly when its trimmed subject or object carries the anonymous-node
marker or when one of the three trimmed fields is empty, and a
surviving row is emitted as subject, em dash, predicate, em dash,
object. -/
theorem C6_linearise_drop_and_order (left_bindings right_bindings : List Binding) :
    linearise_neighbourhood left_bindings right_bindings
      = left_bindings.filterMap (extract_triple "sLabel" "p" "oLabel") ++
        right_bindings.filterMap (extract_triple "sLabel" "pLabel" "oLabel") ∧
    ∀ s_key p_key o_key : String, ∀ b : Binding,
      (extract_triple s_key p_key o_key b = none ↔
        (pyIn "_:bn" (pystrip (bget b s_key)) = true ∨
         pyIn "_:bn" (pystrip (bget b o_key)) = true ∨
         pystrip (bget b s_key) = "" ∨ pystrip (bget b p_key) = "" ∨
         pystrip (bget b o_key) = "")) ∧
      (pyIn "_:bn" (pystrip (bget b s_key)) = false →
       pyIn "_:bn" (pystrip (bget b o_key)) = false →
       pystrip (bget b s_key) ≠ "" → pystrip (bget b p_key) ≠ "" →
       pystrip (bget b o_key) ≠ "" →
        extract_triple s_key p_key o_key b =
          some (pystrip (bget b s_key) ++ " — " ++ pystrip (bget b p_key) ++ " — "
                ++ pystrip (bget b o_key))) := by
  refine ⟨rfl, ?_⟩
  intro s_key p_key o_key b
  constructor
  · simp only [extract_triple]
    split_ifs with h1 h2
    · refine iff_of_true rfl ?_
      have h1x : pyIn "_:bn" (pystrip (bget b s_key)) = true ∨
          pyIn "_:bn" (pystrip (bget b o_key)) = true := by simpa using h1
      rcases h1x with hx | hx
      · exact Or.inl hx
      · exact Or.inr (Or.inl hx)
    · refine iff_of_false (by simp) ?_
      have h1x : pyIn "_:bn" (pystrip (bget b s_key)) = false ∧
          pyIn "_:bn" (pystrip (bget b o_key)) = false := by
        constructor <;> [skip; skip] <;> simp_all
      obtain ⟨hs, hp, ho⟩ := h2
      intro hor
      rcases hor with hx | hx | hx | hx | hx
      · rw [h1x.1] at hx; exact Bool.noConfusion hx
      · rw [h1x.2] at hx; exact Bool.noConfusion hx
      · exact hs hx
      · exact hp hx
      · exact ho hx
    · refine iff_of_true rfl ?_
      by_cases hs : pystrip (bget b s_key) = ""
      · exact Or.inr (Or.inr (Or.inl hs))
      · by_cases hp : pystrip (bget b p_key) = ""
        · exact Or.inr (Or.inr (Or.inr (Or.inl hp)))
        · by_cases ho : pystrip (bget b o_key) = ""
          · exact Or.inr (Or.inr (Or.inr (Or.inr ho)))
          · exact absurd ⟨hs, hp, ho⟩ h2
  · intro hb1 hb2 hs hp ho
    simp only [extract_triple]
    rw [if_neg (by simp [hb1, hb2]), if_pos ⟨hs, hp, ho⟩]

/-- Shared helper: the per-index shape of `entitylinkingresults` when the
index is valid on both zipped lists. -/
theorem rerank_elr_getElem (M : String → ℚ)
    (fetch : String → List Binding × List Binding) (text : String)
    (spans : List Span) (cands : List (List Candidate)) (tmo : Bool) (i : ℕ)
    (hs : i < spans.length) (hc : i < cands.length) :
    (rerank_candidates M fetch text spans cands tmo).entitylinkingresults[i]?
      = some (if tmo then
          ⟨spans[i].label,
           cands[i].map (fun c => ⟨-1, c.uri, c.label, c.ctype, ""⟩),
           spans[i].type⟩
        else processSpan M fetch text spans[i] cands[i]) := by
  have hz : i < (spans.zip cands).length := by
    rw [List.length_zip]; omega
  cases tmo
  · show ((spans.zip cands).map
        (fun p => processSpan M fetch text p.1 p.2))[i]? = _
    rw [List.getElem?_map, List.getElem?_eq_getElem hz, List.getElem_zip]
    rfl
  · show ((spans.zip cands).map (fun p =>
        (⟨p.1.label, p.2.map (fun c => ⟨-1, c.uri, c.label, c.ctype, ""⟩),
          p.1.type⟩ : RankedSpan)))[i]? = _
    rw [List.getElem?_map, List.getElem?_eq_getElem hz, List.getElem_zip]
    rfl

/-- C7: on a well-formed call (one candidate list per span) every input
span contributes exactly one "label : type" entry to predictedlabelspans
and exactly one entry to entitylinkingresults, with matching label and
type; a span whose candidates all get dropped still appears, carrying an
empty candidate list. -/
theorem C7_one_entry_per_span (M : String → ℚ)
    (fetch : String → List Binding × List Binding) (text : String)
    (spans : List Span) (cands : List (List Candidate)) (tmo : Bool)
    (h : spans.length = cands.length) :
    (rerank_candidates M fetch text spans cands tmo).predictedlabelspans.length
        = spans.length ∧
    (rerank_candidates M fetch text spans cands tmo).entitylinkingresults.length
        = spans.length ∧
    (∀ i, ∀ hi : i < spans.length,
      (rerank_candidates M fetch text spans cands tmo).predictedlabelspans[i]?
        = some (spans[i].label ++ " : " ++ spans[i].type)) ∧
    (∀ i, ∀ hi : i < spans.length, ∃ rs,
      (rerank_candidates M fetch text spans cands tmo).entitylinkingresults[i]?
          = some rs ∧
        rs.label = spans[i].label ∧ rs.type = spans[i].type) ∧
    (tmo = false → ∀ i, ∀ hi : i < spans.length, ∀ hc : i < cands.length,
      (∀ cx, cx ∈ cands[i] → scoreOne M fetch text spans[i] cx = none) →
      (rerank_candidates M fetch text spans cands tmo).entitylinkingresults[i]?
        = some ⟨spans[i].label, [], spans[i].type⟩) := by
  refine ⟨?_, ?_, ?_, ?_, ?_⟩
  · simp [rerank_candidates]
  · cases tmo <;> simp [rerank_candidates, List.length_zip] <;> omega
  · intro i hi
    show (spans.map (fun span => span.label ++ " : " ++ span.type))[i]? = _
    rw [List.getElem?_map, List.getElem?_eq_getElem hi]
    rfl
  · intro i hi
    have hc : i < cands.length := by omega
    rw [rerank_elr_getElem M fetch text spans cands tmo i hi hc]
    cases tmo
    · exact ⟨_, rfl, rfl, rfl⟩
    · exact ⟨_, rfl, rfl, rfl⟩
  · intro htmo i hi hc hdrop
    subst htmo
    rw [rerank_elr_getElem M fetch text spans cands false i hi hc]
    have hfm : (cands[i]).filterMap (scoreOne M fetch text spans[i]) = [] :=
      List.filterMap_eq_nil_iff.mpr hdrop
    simp [processSpan, hfm, pysortDesc, List.mergeSort_nil]

/-- C8: for a right-padded attention mask (a block of ones for the real
tokens followed by zeros for the padding), the readout position
`input_len - 1` equals the count of ones minus one, lands on the last
real token (mask value one there), and never coincides with an in-range
padded position. -/
theorem C8_readout_at_last_real_token (k m : ℕ) (hk : 1 ≤ k)
    (mask : List ℕ) (hmask : mask = List.replicate k 1 ++ List.replicate m 0) :
    readout_index mask = k - 1 ∧
    readout_index mask = mask.count 1 - 1 ∧
    mask.getD (readout_index mask) 0 = 1 ∧
    ∀ j, mask.getD j 0 = 0 → readout_index mask ≠ j := by
  subst hmask
  have hsum : input_len (List.replicate k 1 ++ List.replicate m 0) = k := by
    simp [input_len, List.sum_append, List.sum_replicate]
  have hro : readout_index (List.replicate k 1 ++ List.replicate m 0) = k - 1 := by
    simp [readout_index, hsum]
  have hcount : (List.replicate k 1 ++ List.replicate m 0).count 1 = k := by
    simp [List.count_append, List.count_replicate]
  have hlt : k - 1 < (List.replicate k (1 : ℕ)).length := by
    simp only [List.length_replicate]; omega
  have hget : (List.replicate k 1 ++ List.replicate m 0).getD (k - 1) 0 = 1 := by
    rw [List.getD_append _ _ _ _ hlt, List.getD_eq_getElem _ _ hlt]
    exact List.getElem_replicate 1 hlt
  refine ⟨hro, by rw [hro, hcount], by rw [hro]; exact hget, ?_⟩
  intro j hj heq
  rw [hro] at heq
  rw [← heq, hget] at hj
  exact Nat.noConfusion hj

/-- C9: a rerank call is a pure function of the instance state and its
arguments; it mutates no attribute, so a second call with the same
arguments on the post-call state returns the identical result. -/
theorem C9_rerank_pure_and_stateless (st : RerankerState) (text : String)
    (spans : List Span) (cands : List (List Candidate)) (tmo : Bool) :
    (rerank_call st text spans cands tmo).2 = st ∧
    (rerank_call ((rerank_call st text spans cands tmo).2) text spans cands tmo).1
      = (rerank_call st text spans cands tmo).1 :=
  ⟨rfl, rfl⟩

/-- C10: the per-span loop runs over zip(spans, entity_candidates), so
entitylinkingresults has exactly min(number of spans, number of
candidate lists) entries, keeping the first spans in order, while
predictedlabelspans always has one entry per input span. -/
theorem C10_zip_truncates_entitylinkingresults (M : String → ℚ)
    (fetch : String → List Binding × List Binding) (text : String)
    (spans : List Span) (cands : List (List Candidate)) (tmo : Bool) :
    (rerank_candidates M fetch text spans cands tmo).entitylinkingresults.length
        = min spans.length cands.length ∧
    (rerank_candidates M fetch text spans cands tmo).predictedlabelspans.length
        = spans.length ∧
    ∀ i, ∀ hs : i < spans.length, ∀ hc : i < cands.length, ∃ rs,
      (rerank_candidates M fetch text spans cands tmo).entitylinkingresults[i]?
          = some rs ∧
        rs.label = spans[i].label ∧ rs.type = spans[i].type := by
  refine ⟨?_, ?_, ?_⟩
  · cases tmo <;> simp [rerank_candidates, List.length_zip]
  · simp [rerank_candidates]
  · intro i hs hc
    rw [rerank_elr_getElem M fetch text spans cands tmo i hs hc]
    cases tmo
    · exact ⟨_, rfl, rfl, rfl⟩
    · exact ⟨_, rfl, rfl, rfl⟩

/-! ## Concrete witnesses -/

/-- Witness for C2 at a concrete oracle and a concrete evidence list. -/
theorem C2_witness :
    (["a", "bb"] : List String) ≠ [] ∧
    ∃ avg best,
      compute_avg_yes_score (fun s => ((s.length : ℚ))) "m" "q" "e" ["a", "bb"]
        = some (avg, best) := by
  obtain ⟨avg, best, hsome, -⟩ := C2_compute_avg_yes_score_mean_and_first_max
    (fun s => ((s.length : ℚ))) "m" "q" "e" ["a", "bb"] (by simp)
  exact ⟨by simp, avg, best, hsome⟩

/-- Witness for C4 at concrete oracles and inputs. -/
theorem C4_witness :
    (rerank_candidates (fun _ => 0) (fun _ => ([], [])) "q"
        [⟨"s", "person"⟩] [[⟨"u", "l", "t"⟩]] true).entitylinkingresults
      = [⟨"s", [⟨-1, "u", "l", "t", ""⟩], "person"⟩] := by
  have h := C4_text_match_only_sentinel (fun _ => 0) (fun _ => 1)
    (fun _ => ([], [])) (fun _ => ([[("a", "b")]], [])) "q"
    [⟨"s", "person"⟩] [[⟨"u", "l", "t"⟩]]
  rw [h.2.1]
  rfl

/-- Witness for C5 at a concrete fetch oracle with an empty
neighbourhood. -/
theorem C5_witness :
    scoreOne (fun _ => 0) (fun _ => ([], [])) "q" ⟨"s", "person"⟩
        ⟨"u", "l", "t"⟩ = none :=
  (C5_empty_neighbourhood_candidate_dropped (fun _ => 0) (fun _ => ([], []))
    "q" ⟨"s", "person"⟩ [⟨"u", "l", "t"⟩] ⟨"u", "l", "t"⟩ rfl).1

/-- Witness for C6 at a concrete anonymous-node row. -/
theorem C6_witness :
    extract_triple "sLabel" "p" "oLabel"
        [("sLabel", "_:bn7"), ("p", "P"), ("oLabel", "B")] = none :=
  ((C6_linearise_drop_and_order [] []).2 "sLabel" "p" "oLabel"
      [("sLabel", "_:bn7"), ("p", "P"), ("oLabel", "B")]).1.mpr
    (Or.inl (by decide))

/-- Witness for C7: a single span whose only candidate has an empty
neighbourhood still yields one result entry, with an empty candidate
list. -/
theorem C7_witness :
    (rerank_candidates (fun _ => 0) (fun _ => ([], [])) "q"
        [⟨"s", "person"⟩] [[⟨"u", "l", "t"⟩]] false).entitylinkingresults.length
      = 1 ∧
    (rerank_candidates (fun _ => 0) (fun _ => ([], [])) "q"
        [⟨"s", "person"⟩] [[⟨"u", "l", "t"⟩]] false).entitylinkingresults[0]?
      = some ⟨"s", [], "person"⟩ := by
  have h := C7_one_entry_per_span (fun _ => 0) (fun _ => ([], [])) "q"
    [⟨"s", "person"⟩] [[⟨"u", "l", "t"⟩]] false rfl
  refine ⟨by simpa using h.2.1, ?_⟩
  have h5 := h.2.2.2.2 rfl 0 (by decide) (by decide)
    (by intro cx hcx
        have hx : cx = ⟨"u", "l", "t"⟩ := by simpa using hcx
        subst hx
        decide)
  simpa using h5

/-- Witness for C8 at a concrete padded attention mask of three real
tokens and two padding positions. -/
theorem C8_witness :
    readout_index [1, 1, 1, 0, 0] = 2 ∧
    List.getD [1, 1, 1, 0, 0] (readout_index [1, 1, 1, 0, 0]) 0 = 1 := by
  have h := C8_readout_at_last_real_token 3 2 (by decide) [1, 1, 1, 0, 0] rfl
  exact ⟨h.1, h.2.2.1⟩

/-- Witness for C10 at a concrete call with two spans but a single
candidate list. -/
theorem C10_witness :
    (rerank_candidates (fun _ => 0) (fun _ => ([], [])) "q"
        [⟨"a", "person"⟩, ⟨"b", "venue"⟩] [[]] true).entitylinkingresults.length
      = 1 ∧
    (rerank_candidates (fun _ => 0) (fun _ => ([], [])) "q"
        [⟨"a", "person"⟩, ⟨"b", "venue"⟩] [[]] true).predictedlabelspans.length
      = 2 := by
  have h := C10_zip_truncates_entitylinkingresults (fun _ => 0)
    (fun _ => ([], [])) "q" [⟨"a", "person"⟩, ⟨"b", "venue"⟩] [[]] true
  exact ⟨h.1, h.2.1⟩

end DblpLink
